import Mathlib

/-!
# Verification of the Game-of-Life engine in `lIJfe.ino`

This file gives a shallow embedding of the simulation engine of the
repository's Arduino sketch (board representation, neighbor counting,
generation advance, and the stable/dead/repeat classification performed by
`swapGameBoards`), and proves the specified properties about it.

The sketch stores the board as an array of 8 `byte`s, one per row; bit `col`
of `gameboard[row]` is the cell at `(row, col)`.  We model a board as a
`List Nat` of row bytes.  All row bytes are below 256 in the running program
(the `LifeWF` predicate records this); the Arduino `bitSet`/`bitClear`
operations are used only with bit indices below 8, so no byte truncation
ever occurs and the untruncated `Nat` operations below agree with the
8-bit ones on all reachable states.

Hardware effects (LED rendering, delays, serial output, EEPROM, and the
RNG-driven reseeding invoked when a terminal condition fires) are external
collaborators and are outside the embedding: the embedded `swapGameBoards`
returns the three classification flags together with the shifted state, which
is all the engine-level behavior the sketch's loop depends on.
-/

/-- A board: 8 row bytes, bit `col` of row `row` is the cell at `(row, col)`. -/
abbrev Board := List Nat

/-- Arduino `bitRead(b, i) = (b >> i) & 1`: the value (0 or 1) of bit `i`. -/
def bitRead (b i : Nat) : Nat := (b >>> i) % 2

/-- Arduino `bitSet(b, i) = b | (1 << i)` (operand is a byte; every call site
uses `i < 8`, so no truncation to 8 bits occurs). -/
def bitSet (b i : Nat) : Nat := b ||| (1 <<< i)

/-- Arduino `bitClear(b, i) = b & ~(1 << i)` on a byte operand: the complement
is taken at byte width (mask `255 ^^^ (1 <<< i)`); every call site uses
`i < 8`, where this agrees with the C semantics on byte values. -/
def bitClear (b i : Nat) : Nat := b &&& (255 ^^^ (1 <<< i))

/-- Embeds `isCellAlive` (lines 228-234): out-of-range coordinates read as
dead, in-range ones read bit `col` of row byte `row`. -/
def isCellAlive (g : Board) (row col : Int) : Bool :=
  if row < 0 || col < 0 || 8 ≤ row || 8 ≤ col then
    false
  else
    decide (bitRead (g.getD row.toNat 0) col.toNat = 1)

/-- Embeds `countNeighbors` (lines 209-222): sum `isCellAlive` over the 3x3
neighborhood minus the center, with `Int` coordinates (in the C source the
`char` deltas and the `byte` cell coordinate are promoted to `int`). -/
def countNeighbors (g : Board) (row col : Nat) : Nat :=
  ([-1, 0, 1] : List Int).foldl (fun count rowDelta =>
    ([-1, 0, 1] : List Int).foldl (fun count colDelta =>
      if ¬(colDelta = 0 ∧ rowDelta = 0) then
        if isCellAlive g (rowDelta + (row : Int)) (colDelta + (col : Int)) then
          count + 1
        else count
      else count) count) 0

/-- The body of the nested loop of `calculateNewGameBoard` (lines 240-263) for
one cell `(row, col)`: the five-branch decision chain, each branch doing a
`bitSet` or `bitClear` on `newgameboard[row]` (here `nb`), reading
`gameboard` (here `g`). -/
def cellUpdate (g nb : Board) (row col : Nat) : Board :=
  let numNeighbors := countNeighbors g row col
  if bitRead (g.getD row 0) col = 1 ∧ numNeighbors < 2 then
    nb.set row (bitClear (nb.getD row 0) col)
  else if bitRead (g.getD row 0) col = 1 ∧ (numNeighbors = 2 ∨ numNeighbors = 3) then
    nb.set row (bitSet (nb.getD row 0) col)
  else if bitRead (g.getD row 0) col = 1 ∧ 3 < numNeighbors then
    nb.set row (bitClear (nb.getD row 0) col)
  else if ¬(bitRead (g.getD row 0) col = 1) ∧ numNeighbors = 3 then
    nb.set row (bitSet (nb.getD row 0) col)
  else
    nb.set row (bitClear (nb.getD row 0) col)

/-- The 64 `(row, col)` pairs visited by the nested `for` loops of
`calculateNewGameBoard`, in source order (row-major). -/
def allCells : List (Nat × Nat) :=
  (List.range 8).flatMap (fun r => (List.range 8).map (fun c => (r, c)))

/-- The three global board arrays of the sketch (lines 32-63). -/
structure LifeState where
  gameboard : Board
  newgameboard : Board
  oldgameboard : Board
deriving DecidableEq, Repr

/-- One iteration of the nested loop of `calculateNewGameBoard`: only
`newgameboard` is written. -/
def calcStep (s : LifeState) (rc : Nat × Nat) : LifeState :=
  { s with newgameboard := cellUpdate s.gameboard s.newgameboard rc.1 rc.2 }

/-- Embeds `calculateNewGameBoard` (lines 240-263): visit every cell in
row-major order, updating `newgameboard` from `gameboard`. -/
def calculateNewGameBoard (s : LifeState) : LifeState :=
  allCells.foldl calcStep s

/-- The result of `swapGameBoards` (lines 268-294): the three classification
flags and the shifted state.  The actions taken on the flags (sprite display,
delays, reseeding through `setUpInitialBoard`) are hardware/RNG collaborators
outside the embedding. -/
structure SwapOut where
  stable : Bool
  dead : Bool
  rep : Bool
  out : LifeState
deriving DecidableEq, Repr

/-- One iteration of the row loop of `swapGameBoards`: test the three flag
conditions on row `row`, then shift `oldgameboard[row] <- gameboard[row]` and
`gameboard[row] <- newgameboard[row]` (the tests precede the writes, as in the
source). -/
def swapRowStep (acc : SwapOut) (row : Nat) : SwapOut :=
  let stable :=
    if acc.out.gameboard.getD row 0 ≠ acc.out.newgameboard.getD row 0 then
      false
    else acc.stable
  let dead :=
    if acc.out.gameboard.getD row 0 ≠ 0 then false else acc.dead
  let rep :=
    if acc.out.oldgameboard.getD row 0 ≠ acc.out.newgameboard.getD row 0 then
      false
    else acc.rep
  { stable := stable, dead := dead, rep := rep,
    out := { gameboard := acc.out.gameboard.set row (acc.out.newgameboard.getD row 0),
             newgameboard := acc.out.newgameboard,
             oldgameboard := acc.out.oldgameboard.set row (acc.out.gameboard.getD row 0) } }

/-- Embeds `swapGameBoards` (lines 268-294): all three flags start `true`, the
row loop falsifies them and shifts the boards. -/
def swapGameBoards (s : LifeState) : SwapOut :=
  (List.range 8).foldl swapRowStep
    { stable := true, dead := true, rep := true, out := s }

/-- One advance-classify-shift cycle of `loop()` (lines 121-131):
`calculateNewGameBoard()` followed by `swapGameBoards()`. -/
def lifeCycle (s : LifeState) : SwapOut :=
  swapGameBoards (calculateNewGameBoard s)

/-- The state reached after `n` advance-classify-shift cycles from `s`. -/
def statesFrom (s : LifeState) : Nat → LifeState
  | 0 => s
  | n + 1 => (lifeCycle (statesFrom s n)).out

/-- The `repeat` flag computed on cycle `n + 1` (0-based index `n`) when
iterating from `s`. -/
def repAt (s : LifeState) (n : Nat) : Bool := (lifeCycle (statesFrom s n)).rep

/-- Well-formedness of the running program's state: the three arrays have 8
rows and every row is a byte. -/
def LifeWF (s : LifeState) : Prop :=
  s.gameboard.length = 8 ∧ s.newgameboard.length = 8 ∧ s.oldgameboard.length = 8 ∧
  (∀ b ∈ s.gameboard, b < 256) ∧ (∀ b ∈ s.newgameboard, b < 256) ∧
  (∀ b ∈ s.oldgameboard, b < 256)

instance (s : LifeState) : Decidable (LifeWF s) := by
  unfold LifeWF; infer_instance

/-! ## Bit-level helper lemmas -/

theorem bitRead_eq_toNat (b i : Nat) : bitRead b i = (b.testBit i).toNat := by
  rw [bitRead, Nat.shiftRight_eq_div_pow, Nat.testBit_to_div_mod]
  rcases Nat.mod_two_eq_zero_or_one (b / 2 ^ i) with h | h <;> simp [h]

theorem bitRead_lt_two (b i : Nat) : bitRead b i < 2 :=
  Nat.mod_lt _ (by omega)

theorem two_five_five_eq : (255 : Nat) = 2 ^ 8 - 1 := by norm_num

theorem bitRead_bitSet_self (b i : Nat) : bitRead (bitSet b i) i = 1 := by
  simp [bitRead_eq_toNat, bitSet, Nat.shiftLeft_eq, Nat.testBit_two_pow_self]

theorem bitRead_bitSet_ne (b : Nat) (h : i ≠ j) :
    bitRead (bitSet b i) j = bitRead b j := by
  simp [bitRead_eq_toNat, bitSet, Nat.shiftLeft_eq, Nat.testBit_two_pow_of_ne h]

theorem testBit_255_of_lt (h : i < 8) : Nat.testBit 255 i = true := by
  rw [two_five_five_eq, Nat.testBit_two_pow_sub_one]
  simpa using h

theorem bitRead_bitClear_self (b : Nat) (hi : i < 8) :
    bitRead (bitClear b i) i = 0 := by
  rw [bitRead_eq_toNat, bitClear, Nat.shiftLeft_eq, one_mul, Nat.testBit_and,
    Nat.testBit_xor, testBit_255_of_lt hi, Nat.testBit_two_pow_self]
  simp

theorem bitRead_bitClear_ne (b : Nat) (h : i ≠ j) (hj : j < 8) :
    bitRead (bitClear b i) j = bitRead b j := by
  rw [bitRead_eq_toNat, bitClear, Nat.shiftLeft_eq, one_mul, Nat.testBit_and,
    Nat.testBit_xor, testBit_255_of_lt hj, Nat.testBit_two_pow_of_ne h,
    bitRead_eq_toNat]
  simp

theorem bitSet_lt_256 (hb : b < 256) (hi : i < 8) : bitSet b i < 256 := by
  have h2 : (1 <<< i) < 256 := by
    rw [Nat.shiftLeft_eq, one_mul]
    calc 2 ^ i ≤ 2 ^ 7 := Nat.pow_le_pow_right (by omega) (by omega)
    _ < 256 := by norm_num
  have : (256 : Nat) = 2 ^ 8 := by norm_num
  exact this ▸ Nat.or_lt_two_pow (this ▸ hb) (this ▸ h2)

theorem bitClear_le (b i : Nat) : bitClear b i ≤ b := Nat.and_le_left

theorem byte_eq_iff (ha : a < 256) (hb : b < 256) :
    a = b ↔ ∀ c, c < 8 → bitRead a c = bitRead b c := by
  constructor
  · rintro rfl c _; rfl
  · intro h
    apply Nat.eq_of_testBit_eq
    intro i
    by_cases hi : i < 8
    · have := h i hi
      rw [bitRead_eq_toNat, bitRead_eq_toNat] at this
      cases ha' : a.testBit i <;> cases hb' : b.testBit i <;>
        simp [ha', hb'] at this ⊢
    · have h8 : (256 : Nat) ≤ 2 ^ i := by
        calc (256 : Nat) = 2 ^ 8 := by norm_num
        _ ≤ 2 ^ i := Nat.pow_le_pow_right (by omega) (by omega)
      rw [Nat.testBit_lt_two_pow (by omega), Nat.testBit_lt_two_pow (by omega)]

/-! ## List helper lemmas -/

theorem getD_set_ne (l : List Nat) (h : i ≠ j) (v d : Nat) :
    (l.set i v).getD j d = l.getD j d := by
  simp [List.getD_eq_getElem?_getD, List.getElem?_set_ne h]

theorem getD_set_self (l : List Nat) (h : i < l.length) (v d : Nat) :
    (l.set i v).getD i d = v := by
  simp [List.getD_eq_getElem?_getD, List.getElem?_set_self h]

theorem getD_lt_256 {l : List Nat} (h : ∀ b ∈ l, b < 256) (i : Nat) :
    l.getD i 0 < 256 := by
  rcases Nat.lt_or_ge i l.length with hi | hi
  · rw [List.getD_eq_getElem?_getD, List.getElem?_eq_getElem hi]
    exact h _ (List.getElem_mem hi)
  · rw [List.getD_eq_getElem?_getD, List.getElem?_eq_none hi]
    simp

/-! ## The decision chain and the effect of `calculateNewGameBoard` -/

/-- The value (0 or 1) that the five-branch decision chain of
`calculateNewGameBoard` writes into bit `(row, col)` of `newgameboard`: the
standard Life decision table evaluated on the current cell and its neighbor
count. -/
def lifeBit (g : Board) (row col : Nat) : Nat :=
  let numNeighbors := countNeighbors g row col
  if bitRead (g.getD row 0) col = 1 ∧ numNeighbors < 2 then 0
  else if bitRead (g.getD row 0) col = 1 ∧ (numNeighbors = 2 ∨ numNeighbors = 3) then 1
  else if bitRead (g.getD row 0) col = 1 ∧ 3 < numNeighbors then 0
  else if ¬(bitRead (g.getD row 0) col = 1) ∧ numNeighbors = 3 then 1
  else 0

theorem cellUpdate_eq_set (g nb : Board) (r c : Nat) :
    ∃ v, cellUpdate g nb r c = nb.set r v ∧
      (v = bitSet (nb.getD r 0) c ∨ v = bitClear (nb.getD r 0) c) := by
  simp only [cellUpdate]
  split
  · exact ⟨_, rfl, Or.inr rfl⟩
  · split
    · exact ⟨_, rfl, Or.inl rfl⟩
    · split
      · exact ⟨_, rfl, Or.inr rfl⟩
      · split
        · exact ⟨_, rfl, Or.inl rfl⟩
        · exact ⟨_, rfl, Or.inr rfl⟩

theorem length_cellUpdate (g nb : Board) (r c : Nat) :
    (cellUpdate g nb r c).length = nb.length := by
  obtain ⟨v, hv, -⟩ := cellUpdate_eq_set g nb r c
  rw [hv, List.length_set]

theorem bitRead_cellUpdate_ne (g nb : Board) (h : (r, c) ≠ (r', c')) (hc : c < 8) :
    bitRead ((cellUpdate g nb r' c').getD r 0) c = bitRead (nb.getD r 0) c := by
  obtain ⟨v, hv, hval⟩ := cellUpdate_eq_set g nb r' c'
  rw [hv]
  by_cases hr : r = r'
  · subst hr
    have hcc : c' ≠ c := by
      intro he
      apply h
      rw [he]
    by_cases hlen : r < nb.length
    · rw [getD_set_self nb hlen]
      rcases hval with rfl | rfl
      · exact bitRead_bitSet_ne _ hcc
      · exact bitRead_bitClear_ne _ hcc hc
    · rw [List.set_eq_of_length_le (by omega)]
  · rw [getD_set_ne nb (fun he => hr he.symm) _ _]

theorem bitRead_cellUpdate_self (g nb : Board) (hr : r < nb.length) (hc : c < 8) :
    bitRead ((cellUpdate g nb r c).getD r 0) c = lifeBit g r c := by
  simp only [cellUpdate, lifeBit]
  by_cases h1 : bitRead (g.getD r 0) c = 1 ∧ countNeighbors g r c < 2
  · rw [if_pos h1, if_pos h1, getD_set_self nb hr, bitRead_bitClear_self _ hc]
  · rw [if_neg h1, if_neg h1]
    by_cases h2 : bitRead (g.getD r 0) c = 1 ∧
        (countNeighbors g r c = 2 ∨ countNeighbors g r c = 3)
    · rw [if_pos h2, if_pos h2, getD_set_self nb hr, bitRead_bitSet_self]
    · rw [if_neg h2, if_neg h2]
      by_cases h3 : bitRead (g.getD r 0) c = 1 ∧ 3 < countNeighbors g r c
      · rw [if_pos h3, if_pos h3, getD_set_self nb hr, bitRead_bitClear_self _ hc]
      · rw [if_neg h3, if_neg h3]
        by_cases h4 : ¬(bitRead (g.getD r 0) c = 1) ∧ countNeighbors g r c = 3
        · rw [if_pos h4, if_pos h4, getD_set_self nb hr, bitRead_bitSet_self]
        · rw [if_neg h4, if_neg h4, getD_set_self nb hr, bitRead_bitClear_self _ hc]

theorem cellUpdate_bytes (g : Board) (hb : ∀ b ∈ nb, b < 256) (hc : c < 8) :
    ∀ b ∈ cellUpdate g nb r c, b < 256 := by
  obtain ⟨v, hv, hval⟩ := cellUpdate_eq_set g nb r c
  rw [hv]
  intro b hbmem
  rcases List.mem_or_eq_of_mem_set hbmem with hmem | rfl
  · exact hb b hmem
  · rcases hval with rfl | rfl
    · exact bitSet_lt_256 (getD_lt_256 hb r) hc
    · exact lt_of_le_of_lt (bitClear_le _ _) (getD_lt_256 hb r)

/-- The cumulative effect on `newgameboard` of the nested loop of
`calculateNewGameBoard` over the cells in `l`, with `gameboard` fixed at `g`
(the loop never writes `gameboard`). -/
def writeList (g nb : Board) : List (Nat × Nat) → Board
  | [] => nb
  | rc :: rest => writeList g (cellUpdate g nb rc.1 rc.2) rest

theorem length_writeList (g : Board) (l : List (Nat × Nat)) :
    ∀ nb : Board, (writeList g nb l).length = nb.length := by
  induction l with
  | nil => intro nb; rfl
  | cons a t ih =>
    intro nb
    rw [writeList, ih, length_cellUpdate]

theorem bitRead_writeList_notMem (g : Board) (l : List (Nat × Nat))
    (h : (r, c) ∉ l) (hc : c < 8) :
    ∀ nb : Board, bitRead ((writeList g nb l).getD r 0) c = bitRead (nb.getD r 0) c := by
  induction l with
  | nil => intro nb; rfl
  | cons a t ih =>
    intro nb
    have hna : (r, c) ≠ a := fun he => h (he ▸ List.mem_cons_self a t)
    rw [writeList, ih (fun hm => h (List.mem_cons_of_mem a hm)),
      bitRead_cellUpdate_ne g nb hna hc]

theorem bitRead_writeList_mem (g : Board) (l : List (Nat × Nat))
    (hnd : l.Nodup) (hm : (r, c) ∈ l) (hc : c < 8) :
    ∀ nb : Board, r < nb.length →
      bitRead ((writeList g nb l).getD r 0) c = lifeBit g r c := by
  induction l with
  | nil => cases hm
  | cons a t ih =>
    intro nb hr
    rcases List.mem_cons.mp hm with he | ht
    · rw [writeList,
        bitRead_writeList_notMem g t (he ▸ (List.nodup_cons.mp hnd).1) hc]
      rw [← he]
      exact bitRead_cellUpdate_self g nb hr hc
    · rw [writeList]
      exact ih (List.nodup_cons.mp hnd).2 ht _ (by rw [length_cellUpdate]; exact hr)

theorem writeList_bytes (g : Board) (l : List (Nat × Nat))
    (hl : ∀ rc ∈ l, rc.2 < 8) :
    ∀ nb : Board, (∀ b ∈ nb, b < 256) → ∀ b ∈ writeList g nb l, b < 256 := by
  induction l with
  | nil => intro nb hb; exact hb
  | cons a t ih =>
    intro nb hb
    rw [writeList]
    exact ih (fun rc hm => hl rc (List.mem_cons_of_mem a hm)) _
      (cellUpdate_bytes g hb (hl a (List.mem_cons_self a t)))

theorem foldl_calcStep_gameboard (l : List (Nat × Nat)) :
    ∀ s : LifeState, (l.foldl calcStep s).gameboard = s.gameboard := by
  induction l with
  | nil => intro s; rfl
  | cons a t ih =>
    intro s
    rw [List.foldl_cons, ih]
    rfl

theorem foldl_calcStep_oldgameboard (l : List (Nat × Nat)) :
    ∀ s : LifeState, (l.foldl calcStep s).oldgameboard = s.oldgameboard := by
  induction l with
  | nil => intro s; rfl
  | cons a t ih =>
    intro s
    rw [List.foldl_cons, ih]
    rfl

theorem foldl_calcStep_newgameboard (l : List (Nat × Nat)) :
    ∀ s : LifeState,
      (l.foldl calcStep s).newgameboard = writeList s.gameboard s.newgameboard l := by
  induction l with
  | nil => intro s; rfl
  | cons a t ih =>
    intro s
    rw [List.foldl_cons, ih]
    rfl

theorem mem_allCells (hr : r < 8) (hc : c < 8) : (r, c) ∈ allCells := by
  simp only [allCells, List.mem_flatMap, List.mem_map, List.mem_range]
  exact ⟨r, hr, c, hc, rfl⟩

theorem allCells_nodup : allCells.Nodup := by decide

theorem allCells_cols : ∀ rc ∈ allCells, rc.2 < 8 := by decide

theorem calc_newgameboard_bit (s : LifeState) (hr : r < 8) (hc : c < 8)
    (hlen : s.newgameboard.length = 8) :
    bitRead (((calculateNewGameBoard s).newgameboard).getD r 0) c =
      lifeBit s.gameboard r c := by
  rw [calculateNewGameBoard, foldl_calcStep_newgameboard]
  exact bitRead_writeList_mem s.gameboard allCells allCells_nodup
    (mem_allCells hr hc) hc _ (by omega)

theorem calc_newgameboard_length (s : LifeState) :
    (calculateNewGameBoard s).newgameboard.length = s.newgameboard.length := by
  rw [calculateNewGameBoard, foldl_calcStep_newgameboard, length_writeList]

theorem calc_newgameboard_bytes (s : LifeState)
    (hb : ∀ b ∈ s.newgameboard, b < 256) :
    ∀ b ∈ (calculateNewGameBoard s).newgameboard, b < 256 := by
  rw [calculateNewGameBoard, foldl_calcStep_newgameboard]
  exact writeList_bytes s.gameboard allCells allCells_cols _ hb

theorem calc_gameboard (s : LifeState) :
    (calculateNewGameBoard s).gameboard = s.gameboard :=
  foldl_calcStep_gameboard allCells s

theorem calc_oldgameboard (s : LifeState) :
    (calculateNewGameBoard s).oldgameboard = s.oldgameboard :=
  foldl_calcStep_oldgameboard allCells s

/-! ## The `stable` flag of `swapGameBoards` -/

theorem stable_foldl (l : List Nat) :
    ∀ acc : SwapOut, l.Nodup →
      ((l.foldl swapRowStep acc).stable = true ↔
        (acc.stable = true ∧
          ∀ r ∈ l, acc.out.gameboard.getD r 0 = acc.out.newgameboard.getD r 0)) := by
  induction l with
  | nil => intro acc _; simp
  | cons a t ih =>
    intro acc hnd
    have ha : a ∉ t := (List.nodup_cons.mp hnd).1
    have hset : ∀ r ∈ t,
        (acc.out.gameboard.set a (acc.out.newgameboard.getD a 0)).getD r 0 =
          acc.out.gameboard.getD r 0 := by
      intro r hr
      apply getD_set_ne
      intro he
      apply ha
      rw [he]
      exact hr
    rw [List.foldl_cons, ih (swapRowStep acc a) (List.nodup_cons.mp hnd).2]
    constructor
    · rintro ⟨hs, hrest⟩
      have hs' : (if acc.out.gameboard.getD a 0 ≠ acc.out.newgameboard.getD a 0 then
          false else acc.stable) = true := hs
      have hrest' : ∀ r ∈ t,
          (acc.out.gameboard.set a (acc.out.newgameboard.getD a 0)).getD r 0 =
            acc.out.newgameboard.getD r 0 := hrest
      by_cases hga : acc.out.gameboard.getD a 0 = acc.out.newgameboard.getD a 0
      · rw [if_neg (not_not_intro hga)] at hs'
        refine ⟨hs', ?_⟩
        intro r hr
        rcases List.mem_cons.mp hr with rfl | hrt
        · exact hga
        · have h := hrest' r hrt
          rwa [hset r hrt] at h
      · rw [if_pos hga] at hs'
        exact absurd hs' (by simp)
    · rintro ⟨hs, hall⟩
      have hga : acc.out.gameboard.getD a 0 = acc.out.newgameboard.getD a 0 :=
        hall a (List.mem_cons_self a t)
      refine ⟨?_, ?_⟩
      · show (if acc.out.gameboard.getD a 0 ≠ acc.out.newgameboard.getD a 0 then
            false else acc.stable) = true
        rw [if_neg (not_not_intro hga)]
        exact hs
      · intro r hr
        show (acc.out.gameboard.set a (acc.out.newgameboard.getD a 0)).getD r 0 =
          acc.out.newgameboard.getD r 0
        rw [hset r hr]
        exact hall r (List.mem_cons_of_mem a hr)

theorem swap_stable_iff (s : LifeState) :
    (swapGameBoards s).stable = true ↔
      ∀ r, r < 8 → s.gameboard.getD r 0 = s.newgameboard.getD r 0 := by
  have h := stable_foldl (List.range 8)
    { stable := true, dead := true, rep := true, out := s } (by decide)
  rw [swapGameBoards, h]
  simp

/-! ## Further helper lemmas -/

theorem getElem_eq_getD (l : List Nat) (h : i < l.length) : l[i] = l.getD i 0 := by
  rw [List.getD_eq_getElem?_getD, List.getElem?_eq_getElem h]
  rfl

theorem testBit_eq_of_bitRead_eq (h : bitRead a i = bitRead b i) :
    a.testBit i = b.testBit i := by
  rw [bitRead_eq_toNat, bitRead_eq_toNat] at h
  cases ha : a.testBit i <;> cases hb : b.testBit i <;> simp [ha, hb] at h ⊢

/-! ## Concrete states used as witnesses and test patterns -/

/-- A board holding only a horizontal blinker (row 3, columns 2-4; row byte
28 has bits 2, 3, 4 set), with the scratch and previous boards all dead as at
startup (lines 43-63). -/
def blinkerState : LifeState :=
  { gameboard := [0, 0, 0, 28, 0, 0, 0, 0],
    newgameboard := [0, 0, 0, 0, 0, 0, 0, 0],
    oldgameboard := [0, 0, 0, 0, 0, 0, 0, 0] }

/-- A board holding only a 2x2 block (rows 3-4, columns 3-4; row byte 24 has
bits 3 and 4 set), away from the edges. -/
def blockState : LifeState :=
  { gameboard := [0, 0, 0, 24, 24, 0, 0, 0],
    newgameboard := [0, 0, 0, 0, 0, 0, 0, 0],
    oldgameboard := [0, 0, 0, 0, 0, 0, 0, 0] }

/-- The all-dead state. -/
def allDeadState : LifeState :=
  { gameboard := [0, 0, 0, 0, 0, 0, 0, 0],
    newgameboard := [0, 0, 0, 0, 0, 0, 0, 0],
    oldgameboard := [0, 0, 0, 0, 0, 0, 0, 0] }

/-- A board with a single isolated alive cell (row 3, column 3). -/
def lonelyCellState : LifeState :=
  { gameboard := [0, 0, 0, 8, 0, 0, 0, 0],
    newgameboard := [0, 0, 0, 0, 0, 0, 0, 0],
    oldgameboard := [0, 0, 0, 0, 0, 0, 0, 0] }

/-- Same current board as `blinkerState` but with junk in the scratch board. -/
def blinkerJunkScratchState : LifeState :=
  { gameboard := [0, 0, 0, 28, 0, 0, 0, 0],
    newgameboard := [255, 255, 255, 255, 255, 255, 255, 255],
    oldgameboard := [0, 0, 0, 0, 0, 0, 0, 0] }

/-! ## Claim theorems -/

/-- C1: for every 8x8 board state and cell `(r, c)`, `calculateNewGameBoard`
sets the successor cell according to the standard Life decision table
evaluated on `n = countNeighbors r c`: an alive cell with `n < 2` becomes
dead, an alive cell with `n = 2` or `n = 3` stays alive, an alive cell with
`n > 3` becomes dead, a dead cell with `n = 3` becomes alive, and every
other dead cell stays dead. -/
theorem C1_life_decision_table (s : LifeState) (r c : Nat) (hr : r < 8)
    (hc : c < 8) (hlen : s.newgameboard.length = 8) :
    bitRead ((calculateNewGameBoard s).newgameboard.getD r 0) c =
      (if bitRead (s.gameboard.getD r 0) c = 1 ∧
          countNeighbors s.gameboard r c < 2 then 0
       else if bitRead (s.gameboard.getD r 0) c = 1 ∧
          (countNeighbors s.gameboard r c = 2 ∨ countNeighbors s.gameboard r c = 3) then 1
       else if bitRead (s.gameboard.getD r 0) c = 1 ∧
          3 < countNeighbors s.gameboard r c then 0
       else if ¬(bitRead (s.gameboard.getD r 0) c = 1) ∧
          countNeighbors s.gameboard r c = 3 then 1
       else 0) := by
  rw [calc_newgameboard_bit s hr hc hlen]
  rfl

/-- Witness for C1: the blinker state at cell `(2, 3)` (a dead cell with
exactly three alive neighbors, so the successor cell is alive). -/
theorem C1_life_decision_table_witness :
    bitRead ((calculateNewGameBoard blinkerState).newgameboard.getD 2 0) 3 =
      (if bitRead (blinkerState.gameboard.getD 2 0) 3 = 1 ∧
          countNeighbors blinkerState.gameboard 2 3 < 2 then 0
       else if bitRead (blinkerState.gameboard.getD 2 0) 3 = 1 ∧
          (countNeighbors blinkerState.gameboard 2 3 = 2 ∨
            countNeighbors blinkerState.gameboard 2 3 = 3) then 1
       else if bitRead (blinkerState.gameboard.getD 2 0) 3 = 1 ∧
          3 < countNeighbors blinkerState.gameboard 2 3 then 0
       else if ¬(bitRead (blinkerState.gameboard.getD 2 0) 3 = 1) ∧
          countNeighbors blinkerState.gameboard 2 3 = 3 then 1
       else 0) :=
  C1_life_decision_table blinkerState 2 3 (by decide) (by decide) (by decide)

/-- C2: the `stable` classification computed by `swapGameBoards` on the
transition from the current board to the successor produced by
`calculateNewGameBoard` is true exactly when the successor board is
cell-for-cell identical to the current board, i.e. exactly when the advance
is a fixed point. -/
theorem C2_stable_iff_fixed_point (s : LifeState) (hwf : LifeWF s) :
    ((lifeCycle s).stable = true ↔
      ∀ r, r < 8 → ∀ c, c < 8 →
        bitRead ((calculateNewGameBoard s).newgameboard.getD r 0) c =
          bitRead (s.gameboard.getD r 0) c) := by
  unfold lifeCycle
  rw [swap_stable_iff, calc_gameboard]
  have hrow : ∀ r : Nat,
      (s.gameboard.getD r 0 = (calculateNewGameBoard s).newgameboard.getD r 0 ↔
        ∀ c, c < 8 →
          bitRead ((calculateNewGameBoard s).newgameboard.getD r 0) c =
            bitRead (s.gameboard.getD r 0) c) := by
    intro r
    rw [byte_eq_iff (getD_lt_256 hwf.2.2.2.1 r)
      (getD_lt_256 (calc_newgameboard_bytes s hwf.2.2.2.2.1) r)]
    constructor
    · intro h c hc
      exact (h c hc).symm
    · intro h c hc
      exact (h c hc).symm
  constructor
  · intro h r hr c hc
    exact (hrow r).mp (h r hr) c hc
  · intro h r hr
    exact (hrow r).mpr (h r hr)

/-- Witness for C2: the 2x2 block state (which is in fact a fixed point, so
`stable` is detected on the very next cycle). -/
theorem C2_stable_iff_fixed_point_witness :
    LifeWF blockState ∧
    ((lifeCycle blockState).stable = true ↔
      ∀ r, r < 8 → ∀ c, c < 8 →
        bitRead ((calculateNewGameBoard blockState).newgameboard.getD r 0) c =
          bitRead (blockState.gameboard.getD r 0) c) :=
  ⟨by decide, C2_stable_iff_fixed_point blockState (by decide)⟩

/-- C7: `calculateNewGameBoard` never mutates the current board or the
previous board: in the output state only `newgameboard` may differ.  It is a
pure total Lean function of the state (no randomness, no I/O), hence
deterministic over all 8x8 boolean inputs. -/
theorem C7_calc_pure_frame (s : LifeState) :
    (calculateNewGameBoard s).gameboard = s.gameboard ∧
      (calculateNewGameBoard s).oldgameboard = s.oldgameboard :=
  ⟨calc_gameboard s, calc_oldgameboard s⟩

/-- C9: the successor board is independent of the prior contents of the
scratch target board: two runs from the same current board but different
(well-formed) scratch contents produce identical successor boards, because
every one of the 64 target cells is written on every call. -/
theorem C9_scratch_independent (s1 s2 : LifeState)
    (hg : s1.gameboard = s2.gameboard) (h1 : LifeWF s1) (h2 : LifeWF s2) :
    (calculateNewGameBoard s1).newgameboard =
      (calculateNewGameBoard s2).newgameboard := by
  have hlen1 : (calculateNewGameBoard s1).newgameboard.length = 8 := by
    rw [calc_newgameboard_length, h1.2.1]
  have hlen2 : (calculateNewGameBoard s2).newgameboard.length = 8 := by
    rw [calc_newgameboard_length, h2.2.1]
  apply List.ext_getElem
  · rw [hlen1, hlen2]
  · intro i hi1 hi2
    rw [getElem_eq_getD _ hi1, getElem_eq_getD _ hi2]
    apply Nat.eq_of_testBit_eq
    intro j
    by_cases hj : j < 8
    · apply testBit_eq_of_bitRead_eq
      rw [calc_newgameboard_bit s1 (by omega) hj h1.2.1,
        calc_newgameboard_bit s2 (by omega) hj h2.2.1, hg]
    · have h256 : (256 : Nat) ≤ 2 ^ j := by
        calc (256 : Nat) = 2 ^ 8 := by norm_num
        _ ≤ 2 ^ j := Nat.pow_le_pow_right (by omega) (by omega)
      rw [Nat.testBit_lt_two_pow (lt_of_lt_of_le
          (getD_lt_256 (calc_newgameboard_bytes s1 h1.2.2.2.2.1) i) h256),
        Nat.testBit_lt_two_pow (lt_of_lt_of_le
          (getD_lt_256 (calc_newgameboard_bytes s2 h2.2.2.2.2.1) i) h256)]

/-- Witness for C9: the blinker board advanced once with an all-dead scratch
and once with an all-ones scratch gives the same successor. -/
theorem C9_scratch_independent_witness :
    blinkerState.gameboard = blinkerJunkScratchState.gameboard ∧
    LifeWF blinkerState ∧ LifeWF blinkerJunkScratchState ∧
    (calculateNewGameBoard blinkerState).newgameboard =
      (calculateNewGameBoard blinkerJunkScratchState).newgameboard :=
  ⟨by decide, by decide, by decide,
    C9_scratch_independent blinkerState blinkerJunkScratchState
      (by decide) (by decide) (by decide)⟩

/-! ## The blinker trace: periodicity of the iterated cycle -/

set_option maxRecDepth 100000 in
theorem blinker_period (n : Nat) :
    statesFrom blinkerState (n + 3) = statesFrom blinkerState (n + 1) := by
  induction n with
  | zero => decide
  | succ n ih =>
    show (lifeCycle (statesFrom blinkerState (n + 3))).out =
      (lifeCycle (statesFrom blinkerState (n + 1))).out
    rw [ih]

set_option maxRecDepth 100000 in
theorem blinker_repAt_true : ∀ m, repAt blinkerState (m + 1) = true
  | 0 => by decide
  | 1 => by decide
  | (m + 2) => by
    show repAt blinkerState (m + 3) = true
    unfold repAt
    rw [blinker_period m]
    exact blinker_repAt_true m

set_option maxRecDepth 100000 in
/-- C3 counterexample: iterating the advance-classify-shift cycle from the
blinker board (all-dead previous board), the `repeat` classification is true
on generation 2 AND on generation 3 — the claimed every-other-generation
pattern would make it false on the intervening generation 3. -/
theorem C3_counterexample :
    repAt blinkerState 1 = true ∧ repAt blinkerState 2 = true := by
  decide

set_option maxRecDepth 100000 in
/-- C3 (amended): from the blinker start with all-dead previous board, the
`repeat` classification is false on the first generation and true on every
generation after the first — consecutive generations, not every other one:
for a period-2 pattern the successor always equals the board two generations
back once a previous generation exists. -/
theorem C3_blinker_rep_after_first (n : Nat) :
    repAt blinkerState 0 = false ∧ (1 ≤ n → repAt blinkerState n = true) := by
  constructor
  · decide
  · intro hn
    obtain ⟨m, rfl⟩ : ∃ m, n = m + 1 := ⟨n - 1, by omega⟩
    exact blinker_repAt_true m

/-- Witness for the amended C3 at generation 3. -/
theorem C3_blinker_rep_after_first_witness :
    repAt blinkerState 0 = false ∧ repAt blinkerState 3 = true :=
  ⟨(C3_blinker_rep_after_first 3).1, (C3_blinker_rep_after_first 3).2 (by decide)⟩

set_option maxRecDepth 100000 in
/-- C6: advancing the all-dead board yields the all-dead board (a fixed
point of the advance), the `dead` classification is true on that transition,
and on the same `swapGameBoards` call the `stable` classification is also
true: the two checks are independent and both fire in one cycle. -/
theorem C6_dead_board_fixed_and_flags :
    (calculateNewGameBoard allDeadState).newgameboard = [0, 0, 0, 0, 0, 0, 0, 0] ∧
    (lifeCycle allDeadState).dead = true ∧
    (lifeCycle allDeadState).stable = true := by
  decide

set_option maxRecDepth 100000 in
/-- C10: `oldgameboard` is initialized to the all-dead board (lines 54-63)
rather than a "no previous generation" marker, so `repeat` can fire on the
very first cycle: from a single isolated alive cell — whose successor is the
all-dead board — the first `swapGameBoards` call computes `repeat = true`. -/
theorem C10_rep_fires_first_generation :
    lonelyCellState.oldgameboard = [0, 0, 0, 0, 0, 0, 0, 0] ∧
    (lifeCycle lonelyCellState).rep = true := by
  decide

theorem bitRead_eq_zero_of_ne_one (h : bitRead b i ≠ 1) : bitRead b i = 0 := by
  have := bitRead_lt_two b i
  omega

/-- C4: for every board, `countNeighbors` at the corner (0, 0) counts exactly
the three in-board neighbors (0,1), (1,0), (1,1) — the out-of-board
coordinates contribute nothing, with no wraparound to row 7 or column 7 —
and therefore returns a value in [0, 3]. -/
theorem C4_corner_neighbors (g : Board) :
    countNeighbors g 0 0 =
      (if isCellAlive g 0 1 then 1 else 0) + (if isCellAlive g 1 0 then 1 else 0) +
        (if isCellAlive g 1 1 then 1 else 0) ∧
    countNeighbors g 0 0 ≤ 3 := by
  have z1 : ∀ c : Int, isCellAlive g (-1) c = false := by
    intro c
    simp [isCellAlive]
  have z2 : ∀ r : Int, isCellAlive g r (-1) = false := by
    intro r
    simp [isCellAlive]
  have h : countNeighbors g 0 0 =
      (if isCellAlive g 0 1 then 1 else 0) + (if isCellAlive g 1 0 then 1 else 0) +
        (if isCellAlive g 1 1 then 1 else 0) := by
    simp only [countNeighbors, List.foldl_cons, List.foldl_nil]
    norm_num [z1, z2]
    by_cases h1 : isCellAlive g 0 1 <;> by_cases h2 : isCellAlive g 1 0 <;>
      by_cases h3 : isCellAlive g 1 1 <;> simp [h1, h2, h3]
  refine ⟨h, ?_⟩
  rw [h]
  by_cases h1 : isCellAlive g 0 1 <;> by_cases h2 : isCellAlive g 1 0 <;>
    by_cases h3 : isCellAlive g 1 1 <;> simp [h1, h2, h3]

/-- C5: `isCellAlive` returns dead (`false`) for every coordinate outside
[0,8) x [0,8) — total, no faulting — and returns the stored cell value (bit
`col` of row byte `row`) for every in-range coordinate. -/
theorem C5_isCellAlive_bounds (g : Board) (row col : Int) :
    ((row < 0 ∨ col < 0 ∨ 8 ≤ row ∨ 8 ≤ col) → isCellAlive g row col = false) ∧
    (0 ≤ row → row < 8 → 0 ≤ col → col < 8 →
      isCellAlive g row col =
        decide (bitRead (g.getD row.toNat 0) col.toNat = 1)) := by
  constructor
  · intro h
    rcases h with h | h | h | h <;> simp [isCellAlive, h]
  · intro h1 h2 h3 h4
    have n1 : ¬ row < 0 := by omega
    have n2 : ¬ col < 0 := by omega
    have n3 : ¬ (8 : Int) ≤ row := by omega
    have n4 : ¬ (8 : Int) ≤ col := by omega
    simp [isCellAlive, n1, n2, n3, n4]

/-- Witness for C5: an out-of-range read at (-1, 0) and an in-range read at
(3, 3) on the blinker board. -/
theorem C5_isCellAlive_bounds_witness :
    isCellAlive blinkerState.gameboard (-1) 0 = false ∧
    isCellAlive blinkerState.gameboard 3 3 =
      decide (bitRead (blinkerState.gameboard.getD ((3 : Int)).toNat 0)
        ((3 : Int)).toNat = 1) :=
  ⟨(C5_isCellAlive_bounds blinkerState.gameboard (-1) 0).1 (Or.inl (by decide)),
   (C5_isCellAlive_bounds blinkerState.gameboard 3 3).2
     (by decide) (by decide) (by decide) (by decide)⟩

/-! ## The boolean-grid variant and its display bug -/

/-- The boolean-grid board of the second sketch variant (lines 328-337). -/
abbrev GridBoard := List (List Bool)

/-- In the source (line 492) the loop condition is `gameBoard[x,y]`: a C++
comma expression, which discards `x` and evaluates to `gameBoard[y]`, the
`y`-th row array; converted to `bool` it is that row's (always non-null)
decayed pointer, hence always true, independent of every cell value. -/
def rowPointerTruthy (_gameBoard : GridBoard) (_x _y : Nat) : Bool := true

/-- Embeds the row-packing loop of `displayGameBoard` of the boolean-grid
variant (lines 486-500) for row `x`: shift the byte left (truncated to 8 bits
as for a C `byte`) and or-in 1 when the condition `gameBoard[x,y]` is truthy
(see `rowPointerTruthy`: it always is). -/
def displayRowByte (gameBoard : GridBoard) (x : Nat) : Nat :=
  (List.range 8).foldl (fun b y =>
    if rowPointerTruthy gameBoard x y then ((b <<< 1) % 256) ||| 1
    else (b <<< 1) % 256) 0

/-- Modelled from the spec: the packing the claim describes — the bit
contributed for column `y` equals the boolean cell `gameBoard[x][y]`,
MSB-first (column 0 in the high bit). -/
def displayRowByteIntended (gameBoard : GridBoard) (x : Nat) : Nat :=
  (List.range 8).foldl (fun b y =>
    if (gameBoard.getD x []).getD y false then ((b <<< 1) % 256) ||| 1
    else (b <<< 1) % 256) 0

/-- The all-dead boolean grid. -/
def allDeadGrid : GridBoard := List.replicate 8 (List.replicate 8 false)

/-- C8 (code bug): on the all-dead grid the code as written produces the row
byte 255 for row 0, not 0: `gameBoard[x,y]` is always truthy, so every bit
is set regardless of the board, while the packing the claim (and the code
comments) describe gives 0 for a dead row. -/
theorem C8_display_row_bug :
    displayRowByte allDeadGrid 0 = 255 ∧
    displayRowByte allDeadGrid 0 ≠ 0 ∧
    displayRowByteIntended allDeadGrid 0 = 0 := by
  decide
